import Mathlib

/-
  Verification development for the Node runtime adapter of the `ion`
  deployment tool (pkg/runtime/node/node.go).

  The Go code is shallowly embedded: pure helpers from the Go standard
  library that the adapter calls (strings.Split, strings.Join,
  strings.ReplaceAll, strings.HasPrefix, path/filepath Clean, Join, Dir,
  Base, Ext) are translated to executable Lean functions on List Char /
  String; the adapter's own functions (Build, Run, Match, getFile,
  ShouldRebuild, Worker.Logs) are translated on top of them.  External
  capabilities (the filesystem, esbuild's rebuild, filepath.Rel,
  fs.FindUp, the OS environment, process spawning) are passed in
  explicitly as records of functions, and filesystem side effects are
  recorded in an explicit effect list.
-/

namespace NodeRuntime

/-! ## Go standard-library string helpers -/

/-- Go strings.Split with a single-character separator, on character lists:
splitting an empty string yields one empty field, and each separator
occurrence starts a new field. -/
def goSplitChars (sep : Char) : List Char → List (List Char)
  | [] => [[]]
  | c :: rest =>
    match goSplitChars sep rest with
    | [] => [[]]
    | g :: gs => if c = sep then [] :: g :: gs else (c :: g) :: gs

/-- Go strings.Split with a single-character separator, on strings. -/
def goSplit (s : String) (sep : Char) : List String :=
  (goSplitChars sep s.data).map (fun l => (⟨l⟩ : String))

/-- Go strings.Join: concatenate the elements with the separator between
consecutive elements. -/
def goJoinStr (elems : List String) (sep : String) : String :=
  match elems with
  | [] => ""
  | x :: xs => xs.foldl (fun acc e => acc ++ sep ++ e) x

/-- Go strings.HasPrefix on character lists: `listHasPref p s` holds when
`p` is an initial segment of `s`. -/
def listHasPref : List Char → List Char → Bool
  | [], _ => true
  | _ :: _, [] => false
  | a :: as, b :: bs => if a = b then listHasPref as bs else false

/-- Go strings.HasPrefix on strings. -/
def goHasPref (s pre : String) : Bool := listHasPref pre.data s.data

/-- One step of Go strings.ReplaceAll for a non-empty pattern, with explicit
fuel (the fuel is set to the length of the subject, which suffices because
every iteration consumes at least one character when the pattern is
non-empty). -/
def replaceLoop : Nat → List Char → List Char → List Char → List Char
  | 0, s, _, _ => s
  | _ + 1, [], _, _ => []
  | n + 1, c :: rest, old, new =>
    if listHasPref old (c :: rest) then
      new ++ replaceLoop n ((c :: rest).drop old.length) old new
    else
      c :: replaceLoop n rest old new

/-- Go strings.ReplaceAll: replace every non-overlapping occurrence of `old`
in `s` by `new`, left to right; when `old` is empty, `new` is inserted at the
start and after every character, as Go does. -/
def goReplaceAll (s old new : String) : String :=
  match old.data with
  | [] => ⟨new.data ++ s.data.foldr (fun c acc => c :: new.data ++ acc) []⟩
  | _ :: _ => ⟨replaceLoop s.data.length s.data old.data new.data⟩

/-! ## Go path/filepath helpers (Unix separators) -/

/-- Index of the last `/` in a character list, if any (helper for
filepath.Dir and filepath.Base). -/
def lastSlashIdxAux : List Char → Nat → Option Nat → Option Nat
  | [], _, acc => acc
  | c :: rest, i, acc =>
    lastSlashIdxAux rest (i + 1) (if c = '/' then some i else acc)

/-- Go path/filepath Clean (Unix): collapse repeated separators, eliminate
`.` elements, resolve inner `..` elements against preceding ones, and drop
`..` elements at the root; the empty path cleans to `.`. -/
def goClean (path : String) : String :=
  if path = "" then "."
  else
    let rooted : Bool :=
      match path.data with
      | '/' :: _ => true
      | _ => false
    let comps := (goSplitChars '/' path.data).map (fun l => (⟨l⟩ : String))
    let out := comps.foldl
      (fun acc c =>
        if c = "" ∨ c = "." then acc
        else if c = ".." then
          if acc ≠ [] ∧ acc.getLast? ≠ some ".." then acc.dropLast
          else if rooted then acc
          else acc ++ [".."]
        else acc ++ [c])
      ([] : List String)
    let res := (if rooted then "/" else "") ++ goJoinStr out "/"
    if res = "" then "." else res

/-- Go filepath.Join: drop empty elements, join the rest with `/`, and clean
the result; all-empty input yields the empty string. -/
def goJoinPath (elems : List String) : String :=
  match elems.filter (fun e => e ≠ "") with
  | [] => ""
  | ne => goClean (goJoinStr ne "/")

/-- Go filepath.Base: the last element of the path after dropping trailing
slashes; the empty path gives `.`, an all-slash path gives `/`. -/
def goBase (path : String) : String :=
  if path = "" then "."
  else
    let stripped := (path.data.reverse.dropWhile (fun c => c = '/')).reverse
    if stripped = [] then "/"
    else
      match lastSlashIdxAux stripped 0 none with
      | none => ⟨stripped⟩
      | some i => ⟨stripped.drop (i + 1)⟩

/-- Go filepath.Dir: everything before the last slash (inclusive), cleaned;
a path without a slash has directory `.`. -/
def goDir (path : String) : String :=
  match lastSlashIdxAux path.data 0 none with
  | none => goClean ""
  | some i => goClean ⟨path.data.take (i + 1)⟩

/-- Helper for Go filepath.Ext: scan the reversed character list for the
first `.` before any `/`, accumulating the suffix seen so far. -/
def goExtAux : List Char → List Char → String
  | [], _ => ""
  | c :: rest, acc =>
    if c = '/' then ""
    else if c = '.' then ⟨'.' :: acc⟩
    else goExtAux rest (c :: acc)

/-- Go filepath.Ext: the suffix of the final path element starting at its
last dot, or the empty string when the final element has no dot. -/
def goExt (path : String) : String := goExtAux path.data.reverse []

/-! ## esbuild API model (the parts node.go uses) -/

/-- esbuild loader kinds appearing in node.go's loaderMap. -/
inductive Loader where
  | js | jsx | ts | tsx | css | json | text | base64 | file | dataurl | binary
deriving DecidableEq

/-- esbuild output format; the zero value is the default format. -/
inductive Format where
  | defaultFormat | commonJS | esModule
deriving DecidableEq

/-- esbuild platform; node.go always selects node. -/
inductive Platform where
  | defaultPlatform | node
deriving DecidableEq

/-- esbuild source-map mode; node.go always selects linked. -/
inductive SourceMapMode where
  | noSourceMap | linked
deriving DecidableEq

/-- esbuild Target is an integer enumeration whose zero value means
"unset"; node.go only distinguishes zero from non-zero and otherwise uses
the ESNext constant. -/
def ESNextTarget : Nat := 1

/-- esbuild source location attached to a message. -/
structure Location where
  file : String
  line : Nat
  column : Nat
deriving DecidableEq

/-- esbuild diagnostic message: text plus an optional source location. -/
structure Message where
  text : String
  location : Option Location
deriving DecidableEq

/-- Model of the metafile JSON string of an esbuild BuildResult, represented
by its parse outcome: `unparseable` for a string that is not valid JSON,
`noInputs` for valid JSON without an object-valued "inputs" key (on which
the Go type assertion `meta["inputs"].(map[string]interface\x7b\x7d)` panics),
and `inputs keys` for a well-formed metafile with the given input paths. -/
inductive Metafile where
  | unparseable
  | noInputs
  | inputs (keys : List String)
deriving DecidableEq

/-- esbuild BuildResult: the fields node.go reads (Errors, Warnings,
Metafile). -/
structure BuildResult where
  errors : List Message
  warnings : List Message
  metafile : Metafile
deriving DecidableEq

/-- esbuild BuildOptions: the fields node.go sets; every other field keeps
its Go zero value.  Go maps (Loader, Banner) are represented as association
lists. -/
structure BuildOptions where
  entryPoints : List String := []
  platform : Platform := .defaultPlatform
  external : List String := []
  plugins : List String := []
  sourcemap : SourceMapMode := .noSourceMap
  loader : List (String × Loader) := []
  keepNames : Bool := false
  bundle : Bool := false
  splitting : Bool := false
  metafileFlag : Bool := false
  write : Bool := false
  outfile : String := ""
  minifyWhitespace : Bool := false
  minifySyntax : Bool := false
  minifyIdentifiers : Bool := false
  format : Format := .defaultFormat
  target : Nat := 0
  mainFields : List String := []
  banner : List (String × String) := []
deriving DecidableEq

/-- node.go's loaderMap: configuration tag to esbuild loader. -/
def loaderMap (tag : String) : Option Loader :=
  match tag with
  | "js" => some .js
  | "jsx" => some .jsx
  | "ts" => some .ts
  | "tsx" => some .tsx
  | "css" => some .css
  | "json" => some .json
  | "text" => some .text
  | "base64" => some .base64
  | "file" => some .file
  | "dataurl" => some .dataurl
  | "binary" => some .binary
  | _ => none

/-! ## The adapter's data model -/

/-- The nested ESBuild passthrough block of NodeProperties; node.go reads
only its Target field (an integer whose zero value means unset). -/
structure ESBuildIn where
  target : Nat := 0
deriving DecidableEq

/-- NodeProperties from node.go; the Go zero value of each field is its
Lean default, matching what `var properties NodeProperties` yields when
json.Unmarshal fails.  The Loader map is an association list. -/
structure NodeProperties where
  loader : List (String × String) := []
  install : List String := []
  banner : String := ""
  esbuild : ESBuildIn := {}
  minify : Bool := false
  format : String := ""
  sourceMap : Bool := false
  splitting : Bool := false
  plugins : String := ""
deriving DecidableEq

/-- runtime.BuildInput, specialised to the fields node.go reads:
Warp.FunctionID, Warp.Handler, Warp.Properties (represented by the outcome
of parsing the raw JSON: `none` when the bytes are not syntactically valid
JSON, in which case Go's json.Unmarshal leaves the zero value in place),
Project.PathRoot() and Out(). -/
structure BuildInput where
  functionID : String
  handler : String
  properties : Option NodeProperties
  root : String
  out : String

/-- runtime.BuildOutput: the fields node.go populates. -/
structure BuildOutput where
  handler : String
  errors : List String
deriving DecidableEq

/-- Build state of the adapter: the two process-wide maps keyed by
FunctionID.  A Go map holds at most one value per key, which the
function-as-map representation enforces by construction.  A build context
is determined by the options it was created from (esbuild.Context captures
the options; Rebuild replays them), so contexts are stored as their
captured BuildOptions. -/
structure Runtime where
  contexts : String → Option BuildOptions
  results : String → Option BuildResult

/-- The adapter's initial state (node.New()). -/
def emptyRuntime : Runtime := ⟨fun _ => none, fun _ => none⟩

/-- Update one key of a function-represented Go map. -/
def setMap {α : Type} (m : String → Option α) (k : String) (v : α) :
    String → Option α :=
  fun k' => if k' = k then some v else m k'

/-- External capabilities used by Build, passed explicitly: os.Stat
(represented by whether the path exists), filepath.Rel (which may fail),
the esbuild context's Rebuild (a function of the captured options), and
fs.FindUp for the node_modules search. -/
structure Env where
  stat : String → Bool
  rel : String → String → Except String String
  rebuild : BuildOptions → BuildResult
  findUp : String → String → Option String

/-- Filesystem side effects a Build performs: running the incremental
rebuild with Write set (which writes the output artifact), and the
best-effort os.Symlink of node_modules into the output directory. -/
inductive Effect where
  | rebuildRun (opts : BuildOptions)
  | symlink (src dst : String)
deriving DecidableEq

/-! ## The adapter's operations -/

/-- node.go's NODE_EXTENSIONS, in source order. -/
def NODE_EXTENSIONS : List String :=
  [".ts", ".tsx", ".mts", ".cts", ".js", ".jsx", ".mjs", ".cjs"]

/-- The candidate path getFile probes for one extension:
filepath.Join(root, Dir(handler), base ++ ext) where base is
Base(handler) with its trailing dot-separated segment stripped. -/
def handlerCandidate (input : BuildInput) (ext : String) : String :=
  goJoinPath [input.root, goDir input.handler,
    goJoinStr (goSplit (goBase input.handler) '.').dropLast "." ++ ext]

/-- Runtime.getFile: probe NODE_EXTENSIONS in order and return the first
candidate that exists on disk (os.Stat succeeding), if any. -/
def getFile (env : Env) (input : BuildInput) : Option String :=
  (NODE_EXTENSIONS.find? fun ext => env.stat (handlerCandidate input ext)).map
    fun ext => handlerCandidate input ext

/-- The properties Build works with: the parsed NodeProperties, or the Go
zero value when json.Unmarshal failed (its error is discarded in the
source). -/
def effectiveProps (input : BuildInput) : NodeProperties :=
  match input.properties with
  | none => {}
  | some p => p

/-- The loader-translation loop of Build: look every configured tag up in
loaderMap and keep only the recognized ones. -/
def computeLoader (pairs : List (String × String)) : List (String × Loader) :=
  pairs.foldl
    (fun acc kv =>
      match loaderMap kv.2 with
      | none => acc
      | some mapped => acc ++ [(kv.1, mapped)])
    []

/-- The six lines joined into the js banner when emitting an ES module:
the fixed compatibility shim followed by the user-supplied banner text. -/
def esmBannerLines (userBanner : String) : List String :=
  ["import \x7b createRequire as topLevelCreateRequire \x7d from \x27module\x27;",
   "const require = topLevelCreateRequire(import.meta.url);",
   "import \x7b fileURLToPath as topLevelFileUrlToPath, URL as topLevelURL \x7d from \"url\"",
   "const __filename = topLevelFileUrlToPath(import.meta.url)",
   "const __dirname = topLevelFileUrlToPath(new topLevelURL(\".\", import.meta.url))",
   userBanner]

/-- The fixed compatibility shim part of the banner (the five lines before
the user banner), joined by newlines. -/
def esmShimText : String := goJoinStr (esmBannerLines "").dropLast "\n"

/-- The esbuild options Build assembles (node.go lines 105-180): format
decision, output path, loader translation, plugins (the plugin constructor
lives outside this package; a plugin is represented by its source
reference), the fixed options literal, the per-format block, and the
Target override from the ESBuild passthrough. -/
def resolvedOptions (out : String) (properties : NodeProperties)
    (file rel : String) : BuildOptions :=
  let isESM : Bool := properties.format ≠ "cjs"
  let extension : String := if properties.format = "cjs" then ".cjs" else ".mjs"
  let target := goJoinPath [out, goReplaceAll rel (goExt rel) extension]
  let loader := computeLoader properties.loader
  let plugins := if properties.plugins ≠ "" then [properties.plugins] else []
  let options : BuildOptions :=
    { entryPoints := [file]
      platform := .node
      external := ["sharp", "pg-native"] ++ properties.install
      plugins := plugins
      sourcemap := .linked
      loader := loader
      keepNames := true
      bundle := true
      splitting := properties.splitting
      metafileFlag := true
      write := true
      outfile := target
      minifyWhitespace := properties.minify
      minifySyntax := properties.minify
      minifyIdentifiers := properties.minify }
  let options :=
    if isESM then
      { options with
        format := .esModule
        target := ESNextTarget
        mainFields := ["module", "main"]
        banner := [("js", goJoinStr (esmBannerLines properties.banner) "\n")] }
    else
      { options with format := .commonJS, target := ESNextTarget }
  if properties.esbuild.target ≠ 0 then
    { options with target := properties.esbuild.target }
  else options

/-- The diagnostic rendering of Build's error loop: the message text, and
when a location is attached, a space followed by file:line:column. -/
def renderMessage (m : Message) : String :=
  match m.location with
  | none => m.text
  | some loc =>
    m.text ++ " " ++ loc.file ++ ":" ++ toString loc.line ++ ":" ++
      toString loc.column

/-- Runtime.Build: parse properties (defaulting on failure), resolve the
handler (failing with the "Handler not found" error and no effects when no
candidate exists), compute the project-relative path, assemble options,
create the per-function context on first use (reusing the stored one
otherwise), run the incremental rebuild, store the result, render the
error diagnostics, and best-effort-symlink node_modules. -/
def build (env : Env) (r : Runtime) (input : BuildInput) :
    Except String BuildOutput × Runtime × List Effect :=
  let properties := effectiveProps input
  match getFile env input with
  | none => (.error ("Handler not found: " ++ input.handler), r, [])
  | some file =>
    match env.rel input.root file with
    | .error e => (.error e, r, [])
    | .ok rel =>
      let options := resolvedOptions input.out properties file rel
      let ctxPair :=
        match r.contexts input.functionID with
        | some c => (c, r.contexts)
        | none => (options, setMap r.contexts input.functionID options)
      let buildContext := ctxPair.1
      let result := env.rebuild buildContext
      let results := setMap r.results input.functionID result
      let errors := result.errors.map renderMessage
      let effects :=
        Effect.rebuildRun buildContext ::
          (match env.findUp file "node_modules" with
           | some nm => [Effect.symlink nm (goJoinPath [input.out, "node_modules"])]
           | none => [])
      (.ok { handler := input.handler, errors := errors },
        { contexts := ctxPair.2, results := results }, effects)

/-- Runtime.ShouldRebuild: look the stored result up (false when absent),
inspect its metafile (false when unparseable; the Go type assertion panics
-- modelled as `none` -- when the parsed JSON has no object-valued inputs
key), and otherwise test whether some input key, made absolute via
filepath.Abs (whose failures skip the key, mirroring the `continue`),
equals the changed file path. -/
def shouldRebuild (absPath : String → Option String) (r : Runtime)
    (functionID file : String) : Option Bool :=
  match r.results functionID with
  | none => some false
  | some result =>
    match result.metafile with
    | .unparseable => some false
    | .noInputs => none
    | .inputs keys =>
      some (keys.any fun key =>
        match absPath key with
        | none => false
        | some a => a == file)

/-- Runtime.Match: the adapter claims a function precisely when the
runtime identifier starts with "node". -/
def matchRt (runtimeName : String) : Bool := goHasPref runtimeName "node"

/-! ## The worker process manager (Runtime.Run, Worker) -/

/-- runtime.RunInput, specialised to the fields node.go reads. -/
structure RunInput where
  env : List String
  server : String
  workerID : String
  buildOut : String
  buildHandler : String
  platformDir : String

/-- The spawned command: program name, argument vector, environment and
working directory, as node.go assembles them. -/
structure Cmd where
  name : String
  args : List String
  env : List String
  dir : String
deriving DecidableEq

/-- An OS pipe handle (cmd.StdoutPipe / cmd.StderrPipe). -/
structure Pipe where
  pid : Nat
deriving DecidableEq

/-- The Worker handle node.go returns from Run. -/
structure Worker where
  stdout : Pipe
  stderr : Pipe
  cmd : Cmd
deriving DecidableEq

/-- External state Run consults: os.Getenv for the two passthrough
variables (none when unset -- Go's os.Getenv then yields the empty
string), the two pipes handed out by the command object, and the outcome
of cmd.Start() (some error message on spawn failure). -/
structure RunEnv where
  nodeOptions : Option String
  vscodeInspectorOptions : Option String
  stdoutPipe : Pipe
  stderrPipe : Pipe
  startErr : Option String

/-- Go os.Getenv: the value of the variable, or "" when it is unset. -/
def goGetenv (v : Option String) : String := v.getD ""

/-- Runtime.Run: assemble the node command (fixed entry script, artifact
path and worker id as positional arguments), extend the caller-supplied
environment with NODE_OPTIONS, VSCODE_INSPECTOR_OPTIONS and
AWS_LAMBDA_RUNTIME_API, take the two pipes, start the process -- the
return value of cmd.Start() is discarded in the source, so the spawn
outcome does not influence the result -- and return the Worker with a nil
error. -/
def run (osEnv : RunEnv) (input : RunInput) : Worker × Option String :=
  let cmd : Cmd :=
    { name := "node"
      args :=
        ["--enable-source-maps",
         goJoinPath [input.platformDir, "/dist/nodejs-runtime/index.js"],
         goJoinPath [input.buildOut, input.buildHandler],
         input.workerID]
      env := input.env ++
        ["NODE_OPTIONS=" ++ goGetenv osEnv.nodeOptions,
         "VSCODE_INSPECTOR_OPTIONS=" ++ goGetenv osEnv.vscodeInspectorOptions,
         "AWS_LAMBDA_RUNTIME_API=" ++ input.server]
      dir := input.buildOut }
  (⟨osEnv.stdoutPipe, osEnv.stderrPipe, cmd⟩, none)

/-! ## Worker.Logs: the log multiplexer as a transition system

Worker.Logs starts two goroutines, each an io.Copy from one source pipe
(stdout, stderr) into one shared io.Pipe writer, plus a third goroutine
that waits on a WaitGroup of size two and then closes the writer.  The
concurrency is modelled as a small-step transition system over all
interleavings: each copy goroutine repeatedly moves the next byte of its
source into the shared sink and signals the WaitGroup (its done flag) when
its source is exhausted; the closer fires only when both flags are set. -/

namespace LogsModel

/-- A state of the multiplexer: the unread remainder of each source pipe,
the bytes written to the shared pipe so far, the two WaitGroup completion
flags, and whether the shared pipe has been closed. -/
structure St where
  outRem : List Nat
  errRem : List Nat
  sink : List Nat
  doneOut : Bool
  doneErr : Bool
  closed : Bool

/-- The initial state of Logs for source contents `o` and `e`. -/
def init (o e : List Nat) : St :=
  { outRem := o, errRem := e, sink := [], doneOut := false, doneErr := false,
    closed := false }

/-- One step of any of the three goroutines: a copy goroutine transfers the
next byte of its source to the sink, or signals done on end-of-stream; the
closing goroutine closes the pipe once both copies are done. -/
inductive Step : St → St → Prop where
  | copyOut (s : St) (b : Nat) (rest : List Nat) :
      s.doneOut = false → s.outRem = b :: rest →
      Step s { s with outRem := rest, sink := s.sink ++ [b] }
  | copyErr (s : St) (b : Nat) (rest : List Nat) :
      s.doneErr = false → s.errRem = b :: rest →
      Step s { s with errRem := rest, sink := s.sink ++ [b] }
  | finishOut (s : St) :
      s.doneOut = false → s.outRem = [] →
      Step s { s with doneOut := true }
  | finishErr (s : St) :
      s.doneErr = false → s.errRem = [] →
      Step s { s with doneErr := true }
  | closePipe (s : St) :
      s.doneOut = true → s.doneErr = true → s.closed = false →
      Step s { s with closed := true }

/-- States reachable from the initial state of Logs by any interleaving. -/
inductive Reach (o e : List Nat) : St → Prop where
  | start : Reach o e (init o e)
  | next {s t : St} : Reach o e s → Step s t → Reach o e t

/-- Merge relation `IsMerge a b c`: `c` is an order-preserving interleaving of `a` and
`b`; in particular `c` contains every element of `a` and of `b` exactly
once (as multisets) and nothing else. -/
inductive IsMerge : List Nat → List Nat → List Nat → Prop where
  | nil : IsMerge [] [] []
  | left {a : Nat} {as bs cs : List Nat} :
      IsMerge as bs cs → IsMerge (a :: as) bs (a :: cs)
  | right {b : Nat} {as bs cs : List Nat} :
      IsMerge as bs cs → IsMerge as (b :: bs) (b :: cs)

/-- The inductive invariant of the multiplexer: the sink is a merge of the
consumed prefixes of the two sources, a done flag implies its source is
exhausted, and a closed pipe implies both flags. -/
def Inv (o e : List Nat) (s : St) : Prop :=
  ∃ co ce, co ++ s.outRem = o ∧ ce ++ s.errRem = e ∧ IsMerge co ce s.sink ∧
    (s.doneOut = true → s.outRem = []) ∧
    (s.doneErr = true → s.errRem = []) ∧
    (s.closed = true → s.doneOut = true ∧ s.doneErr = true)

end LogsModel

/-! ## Definitions modelled from the spec, for refinement comparisons -/

/-- Modelled from the spec claim (C3): a diagnostics list with one entry
for every error and every warning, rendered
"<message> [<file>:<line>:<col>]" when a source location is known and the
bare message otherwise. -/
def claimedDiagnostics (res : BuildResult) : List String :=
  (res.errors ++ res.warnings).map fun m =>
    match m.location with
    | none => m.text
    | some loc =>
      m.text ++ " [" ++ loc.file ++ ":" ++ toString loc.line ++ ":" ++
        toString loc.column ++ "]"

/-- Modelled from the spec claim (C5): the output path is the input's
project-relative path with its extension (its final dot-suffix) replaced
by the chosen one, relocated under the output directory. -/
def claimedOutfile (out rel extension : String) : String :=
  goJoinPath
    [out, (⟨rel.data.take (rel.data.length - (goExt rel).data.length)⟩ : String)
      ++ extension]

/-- Modelled from the spec claim (C9): the child environment is the
caller-supplied environment, plus the two developer-tooling variables only
when present in the manager's own environment, plus the synthesized
endpoint variable. -/
def claimedRunEnv (osEnv : RunEnv) (input : RunInput) : List String :=
  input.env ++
    (match osEnv.nodeOptions with
     | some v => ["NODE_OPTIONS=" ++ v]
     | none => []) ++
    (match osEnv.vscodeInspectorOptions with
     | some v => ["VSCODE_INSPECTOR_OPTIONS=" ++ v]
     | none => []) ++
    ["AWS_LAMBDA_RUNTIME_API=" ++ input.server]

/-! ## Concrete instances used by witnesses and counterexamples -/

/-- Whether an Except value is a success (Build does not fail). -/
def exceptOk {ε α : Type} : Except ε α → Bool
  | .ok _ => true
  | .error _ => false

/-- An environment whose filesystem contains exactly one file, whose
filepath.Rel returns a fixed relative path, whose rebuild always yields a
fixed result, and which finds no node_modules directory. -/
def mkEnv (statPath relStr : String) (res : BuildResult) : Env :=
  { stat := fun q => q == statPath
    rel := fun _ _ => .ok relStr
    rebuild := fun _ => res
    findUp := fun _ _ => none }

/-- A bundler result carrying one located error and one unlocated warning. -/
def resC3 : BuildResult :=
  { errors := [{ text := "boom", location := some { file := "f.ts", line := 3, column := 7 } }]
    warnings := [{ text := "careful", location := none }]
    metafile := .inputs [] }

/-- Build environment for the diagnostics scenario. -/
def envC3 : Env := mkEnv "/p/handlers/a.ts" "handlers/a.ts" resC3

/-- Build input for the diagnostics scenario. -/
def inputC3 : BuildInput :=
  { functionID := "fn3", handler := "handlers/a.post", properties := none,
    root := "/p", out := "/out" }

/-- An environment whose filesystem is empty (every stat fails). -/
def envEmptyFs : Env :=
  { stat := fun _ => false
    rel := fun _ _ => .error "rel unused"
    rebuild := fun _ => { errors := [], warnings := [], metafile := .inputs [] }
    findUp := fun _ _ => none }

/-- Build input for the handler-not-found scenario. -/
def inputC4 : BuildInput :=
  { functionID := "fn4", handler := "handlers/missing.post", properties := none,
    root := "/p", out := "/out" }

/-- An environment whose filesystem contains a source file inside a
directory whose own name carries a source extension. -/
def envC5 : Env :=
  mkEnv "/p/a.ts/b.ts" "a.ts/b.ts"
    { errors := [], warnings := [], metafile := .inputs [] }

/-- Build input whose handler lives in the directory `a.ts`. -/
def inputC5 : BuildInput :=
  { functionID := "fn5", handler := "a.ts/b.handler", properties := none,
    root := "/p", out := "/out" }

/-- Build environment and input for the context-reuse scenario. -/
def envC6 : Env := mkEnv "/p/handlers/a.ts" "handlers/a.ts"
  { errors := [], warnings := [], metafile := .inputs ["handlers/a.ts"] }

/-- Build input for the context-reuse scenario. -/
def inputC6 : BuildInput :=
  { functionID := "fn6", handler := "handlers/a.post", properties := none,
    root := "/p", out := "/out" }

/-- A model of filepath.Abs for a process whose working directory is
/proj: relative paths are resolved against it, absolute ones cleaned. -/
def absDemo (s : String) : Option String :=
  if goHasPref s "/" then some (goClean s) else some (goJoinPath ["/proj", s])

/-- Adapter state holding one stored build result whose dependency report
lists one relative input path. -/
def rDemoC1 : Runtime :=
  { contexts := fun _ => none
    results := fun id =>
      if id = "fn1" then
        some { errors := [], warnings := [],
               metafile := .inputs ["handlers/a.ts", "handlers/util.ts"] }
      else none }

/-- A run request with one caller-supplied variable. -/
def runInputDemo : RunInput :=
  { env := ["FOO=bar"], server := "localhost:44149", workerID := "worker-1",
    buildOut := "/out", buildHandler := "b.mjs", platformDir := "/platform" }

/-- A run whose process spawn fails (cmd.Start returns an error). -/
def runEnvFail : RunEnv :=
  { nodeOptions := none, vscodeInspectorOptions := none,
    stdoutPipe := ⟨0⟩, stderrPipe := ⟨1⟩,
    startErr := some "fork/exec node: resource temporarily unavailable" }

/-- A manager environment in which neither developer-tooling variable is
set, and the spawn succeeds. -/
def runEnvNoOpts : RunEnv :=
  { nodeOptions := none, vscodeInspectorOptions := none,
    stdoutPipe := ⟨0⟩, stderrPipe := ⟨1⟩, startErr := none }

/-! ## Helper lemmas -/

/-- Characterization: `listHasPref p s` holds exactly when `s` extends `p` on the right. -/
theorem listHasPref_iff (p : List Char) : ∀ s : List Char,
    listHasPref p s = true ↔ ∃ t, s = p ++ t := by
  induction p with
  | nil =>
    intro s
    exact ⟨fun _ => ⟨s, rfl⟩, fun _ => rfl⟩
  | cons a as ih =>
    intro s
    cases s with
    | nil =>
      simp [listHasPref]
    | cons b bs =>
      by_cases hab : a = b
      · subst hab
        have hred : listHasPref (a :: as) (a :: bs) = listHasPref as bs := by
          simp [listHasPref]
        rw [hred, ih bs]
        constructor
        · rintro ⟨t, rfl⟩
          exact ⟨t, rfl⟩
        · rintro ⟨t, ht⟩
          injection ht with _ h2
          exact ⟨t, h2⟩
      · constructor
        · intro h
          rw [show listHasPref (a :: as) (b :: bs) = false from by
            simp [listHasPref, hab]] at h
          exact absurd h (by simp)
        · rintro ⟨t, ht⟩
          injection ht with h1 _
          exact absurd h1.symm hab

/-! ## Claims -/

/-- C10: `Match(runtime)` returns true precisely when the runtime
identifier string begins with "node"; the decision is a pure function of
the string (the definition of `matchRt` reads no adapter state). -/
theorem C10_match_node_names (s : String) :
    matchRt s = true ↔ ∃ t : String, s = "node" ++ t := by
  obtain ⟨l⟩ := s
  unfold matchRt goHasPref
  rw [listHasPref_iff]
  constructor
  · rintro ⟨t, rfl⟩
    exact ⟨⟨t⟩, rfl⟩
  · rintro ⟨⟨t⟩, h⟩
    refine ⟨t, ?_⟩
    cases h
    rfl

/-- C2 (amended): Run always returns a Worker handle wired to the two
process pipes together with a nil error, whether or not spawning the
process succeeded: the result of cmd.Start() is discarded, so a spawn
failure is not surfaced to the caller. -/
theorem C2_run_always_ok (osEnv : RunEnv) (input : RunInput) :
    (run osEnv input).2 = none ∧
    (run osEnv input).1.stdout = osEnv.stdoutPipe ∧
    (run osEnv input).1.stderr = osEnv.stderrPipe :=
  ⟨rfl, rfl, rfl⟩

/-- C2 counterexample: on a run whose spawn fails (cmd.Start returns an
error), Run still returns a Worker handle and a nil error, contradicting
the claim that spawn failures are surfaced as a SpawnError instead of a
Worker handle. -/
theorem C2_cex_spawn_failure_ignored :
    runEnvFail.startErr =
      some "fork/exec node: resource temporarily unavailable" ∧
    (run runEnvFail runInputDemo).2 = none ∧
    (run runEnvFail runInputDemo).1.cmd.name = "node" :=
  ⟨rfl, rfl, rfl⟩

/-- C9 (amended): the child environment is the caller-supplied environment
followed by NODE_OPTIONS and VSCODE_INSPECTOR_OPTIONS entries carrying the
manager's values -- appended unconditionally, with an empty value when the
variable is unset -- and the synthesized AWS_LAMBDA_RUNTIME_API entry; when
both developer-tooling variables are present, this coincides with the
claimed passthrough-if-present environment. -/
theorem C9_child_environment (osEnv : RunEnv) (input : RunInput)
    (v w : String) :
    (run osEnv input).1.cmd.env =
      input.env ++
        ["NODE_OPTIONS=" ++ goGetenv osEnv.nodeOptions,
         "VSCODE_INSPECTOR_OPTIONS=" ++ goGetenv osEnv.vscodeInspectorOptions,
         "AWS_LAMBDA_RUNTIME_API=" ++ input.server] ∧
    (run { osEnv with nodeOptions := some v, vscodeInspectorOptions := some w }
        input).1.cmd.env =
      claimedRunEnv
        { osEnv with nodeOptions := some v, vscodeInspectorOptions := some w }
        input := by
  constructor
  · rfl
  · simp [run, claimedRunEnv, goGetenv]

/-- C9 counterexample: when neither developer-tooling variable is present
in the manager's environment, the spawned environment still receives
NODE_OPTIONS= and VSCODE_INSPECTOR_OPTIONS= entries (with empty values),
so it differs from the claimed environment in which absent variables are
not passed through. -/
theorem C9_cex_unset_vars_still_appended :
    (run runEnvNoOpts runInputDemo).1.cmd.env ≠
      claimedRunEnv runEnvNoOpts runInputDemo := by
  decide

/-- C1: ShouldRebuild answers false (not an error) when no result is
stored for the identity or when the stored dependency report is not valid
JSON, and answers true exactly when a stored report lists an input path
whose absolute form equals the changed path. -/
theorem C1_should_rebuild_iff (absPath : String → Option String)
    (r : Runtime) (id file : String) :
    (r.results id = none → shouldRebuild absPath r id file = some false) ∧
    (∀ res, r.results id = some res → res.metafile = Metafile.unparseable →
      shouldRebuild absPath r id file = some false) ∧
    (shouldRebuild absPath r id file = some true ↔
      ∃ res keys, r.results id = some res ∧
        res.metafile = Metafile.inputs keys ∧
        ∃ key ∈ keys, absPath key = some file) := by
  have hmatch : ∀ key : String,
      ((match absPath key with
        | none => false
        | some a => a == file) = true) ↔ absPath key = some file := by
    intro key
    cases h : absPath key <;> simp [beq_iff_eq]
  refine ⟨?_, ?_, ?_⟩
  · intro h
    simp [shouldRebuild, h]
  · intro res h hm
    simp [shouldRebuild, h, hm]
  · constructor
    · intro h
      cases hres : r.results id with
      | none =>
        rw [show shouldRebuild absPath r id file = some false from by
          simp [shouldRebuild, hres]] at h
        exact absurd h (by simp)
      | some res =>
        cases hm : res.metafile with
        | unparseable =>
          rw [show shouldRebuild absPath r id file = some false from by
            simp [shouldRebuild, hres, hm]] at h
          exact absurd h (by simp)
        | noInputs =>
          rw [show shouldRebuild absPath r id file = none from by
            simp [shouldRebuild, hres, hm]] at h
          exact absurd h (by simp)
        | inputs keys =>
          rw [show shouldRebuild absPath r id file =
              some (keys.any fun key =>
                match absPath key with
                | none => false
                | some a => a == file) from by
            simp [shouldRebuild, hres, hm]] at h
          simp only [Option.some.injEq] at h
          rw [List.any_eq_true] at h
          obtain ⟨key, hk, hkey⟩ := h
          rw [hmatch key] at hkey
          exact ⟨res, keys, rfl, hm, key, hk, hkey⟩
    · rintro ⟨res, keys, hres, hm, key, hk, hkey⟩
      rw [show shouldRebuild absPath r id file =
          some (keys.any fun key =>
            match absPath key with
            | none => false
            | some a => a == file) from by
        simp [shouldRebuild, hres, hm]]
      simp only [Option.some.injEq]
      rw [List.any_eq_true]
      exact ⟨key, hk, (hmatch key).mpr hkey⟩

/-- C1 witness: with a stored report listing handlers/util.ts, a change to
its absolute path under /proj triggers a rebuild, and an identity without
any stored result answers false. -/
theorem C1_witness :
    shouldRebuild absDemo rDemoC1 "fn1" "/proj/handlers/util.ts" = some true ∧
    shouldRebuild absDemo rDemoC1 "ghost" "/proj/handlers/util.ts" = some false := by
  constructor
  · exact (C1_should_rebuild_iff absDemo rDemoC1 "fn1"
      "/proj/handlers/util.ts").2.2.mpr
      ⟨_, _, rfl, rfl, "handlers/util.ts", by decide, by decide⟩
  · exact (C1_should_rebuild_iff absDemo rDemoC1 "ghost"
      "/proj/handlers/util.ts").1 rfl

/-- C3 (amended): for every build that resolves its handler (and whose
project-relative path computation succeeds), Build returns a result, not
an error, regardless of diagnostics; the returned diagnostics list
contains one entry for every error emitted by the bundler -- warnings are
logged but not returned -- rendered by `renderMessage` as
"<message> <file>:<line>:<col>" (space-separated, no brackets) when a
source location is known and as the bare message otherwise. -/
theorem C3_diagnostics_errors_only (env : Env) (r : Runtime)
    (input : BuildInput) (file rel : String)
    (hf : getFile env input = some file)
    (hrel : env.rel input.root file = Except.ok rel) :
    (build env r input).1 = Except.ok
      { handler := input.handler
        errors := (env.rebuild ((r.contexts input.functionID).getD
          (resolvedOptions input.out (effectiveProps input) file
            rel))).errors.map renderMessage } := by
  cases hc : r.contexts input.functionID <;>
    simp [build, hf, hrel, hc]

/-- C3 witness: a concrete build whose bundler result carries one located
error and one warning returns successfully with exactly the rendered
error. -/
theorem C3_witness :
    (build envC3 emptyRuntime inputC3).1 =
      Except.ok { handler := "handlers/a.post", errors := ["boom f.ts:3:7"] } := by
  exact C3_diagnostics_errors_only envC3 emptyRuntime inputC3
    "/p/handlers/a.ts" "handlers/a.ts" (by decide) rfl

/-- C3 counterexample: for the same concrete build, the claim's rendering
(one entry per error AND per warning, with the location in brackets) gives
["boom [f.ts:3:7]", "careful"], whereas Build returns ["boom f.ts:3:7"]:
the warning is missing from the returned list and the location is not
bracketed. -/
theorem C3_cex_warnings_dropped_no_brackets :
    (build envC3 emptyRuntime inputC3).1 =
      Except.ok { handler := "handlers/a.post", errors := ["boom f.ts:3:7"] } ∧
    claimedDiagnostics resC3 = ["boom [f.ts:3:7]", "careful"] ∧
    (["boom f.ts:3:7"] : List String) ≠ ["boom [f.ts:3:7]", "careful"] :=
  ⟨rfl, rfl, by decide⟩

/-- The loader-translation fold equals a filterMap over the recognized
tags. -/
theorem computeLoader_go (pairs : List (String × String)) :
    ∀ acc : List (String × Loader),
      pairs.foldl
        (fun acc kv =>
          match loaderMap kv.2 with
          | none => acc
          | some mapped => acc ++ [(kv.1, mapped)])
        acc =
      acc ++ pairs.filterMap (fun kv => (loaderMap kv.2).map fun l => (kv.1, l)) := by
  induction pairs with
  | nil =>
    intro acc
    simp
  | cons kv rest ih =>
    intro acc
    cases h : loaderMap kv.2 with
    | none => simp [h, ih]
    | some l => simp [h, ih]

/-- C7: configuration leniency.  A build whose properties blob failed to
parse behaves exactly like one with the zero-value defaults; the loader
translation keeps exactly the recognized (extension, tag) pairs, silently
skipping unknown tags; and replacing the loader configuration by any pair
list never changes whether the Build call succeeds. -/
theorem C7_lenient_configuration (env : Env) (r : Runtime)
    (fid hdl root out : String) (props : NodeProperties)
    (pairs : List (String × String)) :
    build env r ⟨fid, hdl, none, root, out⟩ =
      build env r ⟨fid, hdl, some {}, root, out⟩ ∧
    computeLoader pairs =
      pairs.filterMap (fun kv => (loaderMap kv.2).map fun l => (kv.1, l)) ∧
    exceptOk (build env r ⟨fid, hdl, some props, root, out⟩).1 =
      exceptOk (build env r
        ⟨fid, hdl, some { props with loader := pairs }, root, out⟩).1 := by
  refine ⟨rfl, ?_, ?_⟩
  · exact (computeLoader_go pairs []).trans (List.nil_append _)
  · have hgf : getFile env ⟨fid, hdl, some { props with loader := pairs }, root, out⟩ =
        getFile env ⟨fid, hdl, some props, root, out⟩ := rfl
    cases hf : getFile env ⟨fid, hdl, some props, root, out⟩ with
    | none => simp [build, hf, hgf, exceptOk]
    | some file =>
      cases hrel : env.rel root file with
      | error e => simp [build, hf, hgf, hrel, exceptOk]
      | ok rel => simp [build, hf, hgf, hrel, exceptOk]

/-- The joined banner splits as the fixed shim text, a newline, and the
user-supplied banner, in that order. -/
theorem esmBanner_split (b : String) :
    goJoinStr (esmBannerLines b) "\n" = esmShimText ++ "\n" ++ b := rfl

/-- C5 (amended): `format: "cjs"` yields CommonJS output, extension .cjs
and an empty banner (no shim); any other format value yields an ES module,
extension .mjs, and a js banner consisting of the fixed compatibility shim
followed by the user-supplied banner text, in that order.  The output path
is obtained by replacing every occurrence of the extension substring of
the project-relative path (not only the trailing one) by the chosen
extension, relocated under the output directory, as strings.ReplaceAll
does. -/
theorem C5_format_extension_banner (out : String) (props : NodeProperties)
    (file rel : String) :
    (resolvedOptions out props file rel).format =
      (if props.format = "cjs" then Format.commonJS else Format.esModule) ∧
    (resolvedOptions out props file rel).outfile =
      goJoinPath [out, goReplaceAll rel (goExt rel)
        (if props.format = "cjs" then ".cjs" else ".mjs")] ∧
    (resolvedOptions out props file rel).banner =
      (if props.format = "cjs" then []
       else [("js", esmShimText ++ "\n" ++ props.banner)]) := by
  by_cases hf : props.format = "cjs" <;>
    by_cases ht : props.esbuild.target = 0 <;>
      refine ⟨?_, ?_, ?_⟩ <;>
        simp [resolvedOptions, hf, ht, esmBanner_split]

/-- C5 counterexample: a real build whose handler directory is itself
named with a source extension (handler a.ts/b.handler, file a.ts/b.ts)
stores a context whose output file is /out/a.mjs/b.mjs -- the extension
substring is replaced everywhere -- whereas replacing only the path's
extension as the claim states would give /out/a.ts/b.mjs. -/
theorem C5_cex_replaceall_not_suffix :
    ((build envC5 emptyRuntime inputC5).2.1.contexts "fn5").map
        BuildOptions.outfile = some "/out/a.mjs/b.mjs" ∧
    claimedOutfile "/out" "a.ts/b.ts" ".mjs" = "/out/a.ts/b.mjs" ∧
    ("/out/a.mjs/b.mjs" : String) ≠ "/out/a.ts/b.mjs" :=
  ⟨rfl, rfl, by decide⟩

/-- C6: per-identity incremental state.  On a build that reaches the
rebuild stage: if no context is stored for the FunctionID, the context
created from this call's fully resolved configuration is stored and its
rebuild result recorded; if a context is already stored, the context map
is completely unchanged (the new call's configuration is not re-applied)
and the rebuild runs against the stored context, overwriting the stored
result in place; contexts of other identities are never touched.  The
context map holds at most one context per identity by construction. -/
theorem C6_context_per_identity (env : Env) (r : Runtime)
    (input : BuildInput) (file rel : String)
    (hf : getFile env input = some file)
    (hrel : env.rel input.root file = Except.ok rel) :
    (r.contexts input.functionID = none →
      (build env r input).2.1.contexts input.functionID =
        some (resolvedOptions input.out (effectiveProps input) file rel) ∧
      (build env r input).2.1.results input.functionID =
        some (env.rebuild
          (resolvedOptions input.out (effectiveProps input) file rel))) ∧
    (∀ c, r.contexts input.functionID = some c →
      (build env r input).2.1.contexts = r.contexts ∧
      (build env r input).2.1.results input.functionID =
        some (env.rebuild c)) ∧
    (∀ id2, id2 ≠ input.functionID →
      (build env r input).2.1.contexts id2 = r.contexts id2) := by
  refine ⟨?_, ?_, ?_⟩
  · intro hc
    constructor <;> simp [build, hf, hrel, hc, setMap]
  · intro c hc
    constructor <;> simp [build, hf, hrel, hc, setMap]
  · intro id2 hne
    cases hc : r.contexts input.functionID <;>
      simp [build, hf, hrel, hc, setMap, hne]

/-- C6 witness: a first build for fn6 stores the context resolved from
this call's configuration and records its rebuild result. -/
theorem C6_witness :
    (build envC6 emptyRuntime inputC6).2.1.contexts "fn6" =
      some (resolvedOptions "/out" {} "/p/handlers/a.ts" "handlers/a.ts") ∧
    (build envC6 emptyRuntime inputC6).2.1.results "fn6" =
      some (envC6.rebuild
        (resolvedOptions "/out" {} "/p/handlers/a.ts" "handlers/a.ts")) := by
  exact (C6_context_per_identity envC6 emptyRuntime inputC6
    "/p/handlers/a.ts" "handlers/a.ts" (by decide) rfl).1 rfl

/-- Characterization: `find?` returns exactly the first element of the list satisfying the
predicate. -/
theorem find?_first {α : Type} (p : α → Bool) :
    ∀ (l : List α) (a : α),
      l.find? p = some a ↔
        ∃ i, ∃ hi : i < l.length, l.get ⟨i, hi⟩ = a ∧ p a = true ∧
          ∀ j, ∀ hj : j < l.length, j < i → p (l.get ⟨j, hj⟩) = false := by
  intro l
  induction l with
  | nil =>
    intro a
    simp [List.find?]
  | cons x xs ih =>
    intro a
    cases hx : p x with
    | true =>
      rw [List.find?_cons_of_pos _ hx]
      constructor
      · intro h
        injection h with h
        subst h
        exact ⟨0, Nat.succ_pos _, rfl, hx,
          fun j hj hj0 => absurd hj0 (Nat.not_lt_zero j)⟩
      · rintro ⟨i, hi, hget, hpa, hbef⟩
        cases i with
        | zero =>
          cases hget
          rfl
        | succ i2 =>
          have h0 := hbef 0 (Nat.succ_pos _) (Nat.succ_pos i2)
          rw [show (x :: xs).get ⟨0, Nat.succ_pos _⟩ = x from rfl] at h0
          rw [hx] at h0
          cases h0
    | false =>
      rw [List.find?_cons_of_neg _ (by simp [hx])]
      rw [ih a]
      constructor
      · rintro ⟨i, hi, hget, hpa, hbef⟩
        refine ⟨i + 1, Nat.succ_lt_succ hi, hget, hpa, ?_⟩
        intro j hj hji
        cases j with
        | zero => exact hx
        | succ j2 =>
          exact hbef j2 (Nat.lt_of_succ_lt_succ hj) (Nat.lt_of_succ_lt_succ hji)
      · rintro ⟨i, hi, hget, hpa, hbef⟩
        cases i with
        | zero =>
          rw [show (x :: xs).get ⟨0, hi⟩ = x from rfl] at hget
          subst hget
          rw [hx] at hpa
          cases hpa
        | succ i2 =>
          refine ⟨i2, Nat.lt_of_succ_lt_succ hi, hget, hpa, ?_⟩
          intro j hj hji
          exact hbef (j + 1) (Nat.succ_lt_succ hj) (Nat.succ_lt_succ hji)

/-- C4: handler resolution.  The probe order is exactly
.ts, .tsx, .mts, .cts, .js, .jsx, .mjs, .cjs; getFile returns a path
precisely when it is the candidate of the first extension in that order
whose candidate exists on disk; and when no candidate exists for any
extension, Build fails with the "Handler not found" error naming the
handler spec, leaving the adapter state untouched and performing no
filesystem effects. -/
theorem C4_handler_resolution (env : Env) (r : Runtime) (input : BuildInput) :
    NODE_EXTENSIONS = [".ts", ".tsx", ".mts", ".cts", ".js", ".jsx", ".mjs", ".cjs"] ∧
    (∀ f, getFile env input = some f ↔
      ∃ i, ∃ hi : i < NODE_EXTENSIONS.length,
        f = handlerCandidate input (NODE_EXTENSIONS.get ⟨i, hi⟩) ∧
        env.stat f = true ∧
        ∀ j, ∀ hj : j < NODE_EXTENSIONS.length, j < i →
          env.stat (handlerCandidate input (NODE_EXTENSIONS.get ⟨j, hj⟩)) = false) ∧
    ((∀ ext ∈ NODE_EXTENSIONS, env.stat (handlerCandidate input ext) = false) →
      build env r input =
        (Except.error ("Handler not found: " ++ input.handler), r, [])) := by
  refine ⟨rfl, ?_, ?_⟩
  · intro f
    unfold getFile
    rw [Option.map_eq_some']
    constructor
    · rintro ⟨ext, hfind, hcand⟩
      obtain ⟨i, hi, hget, hp, hbef⟩ :=
        (find?_first (fun e => env.stat (handlerCandidate input e))
          NODE_EXTENSIONS ext).mp hfind
      refine ⟨i, hi, ?_, ?_, ?_⟩
      · rw [← hcand, hget]
      · rw [← hcand]
        exact hp
      · intro j hj hji
        exact hbef j hj hji
    · rintro ⟨i, hi, hf, hstat, hbef⟩
      refine ⟨NODE_EXTENSIONS.get ⟨i, hi⟩, ?_, hf.symm⟩
      apply (find?_first (fun e => env.stat (handlerCandidate input e))
        NODE_EXTENSIONS (NODE_EXTENSIONS.get ⟨i, hi⟩)).mpr
      refine ⟨i, hi, rfl, ?_, hbef⟩
      rw [← hf]
      exact hstat
  · intro hnone
    have hgf : getFile env input = none := by
      unfold getFile
      rw [Option.map_eq_none']
      rw [List.find?_eq_none]
      intro x hx
      simp [hnone x hx]
    simp [build, hgf]

/-- C4 witness: on an empty filesystem, a build for handlers/missing.post
fails with the error naming the handler spec, the state unchanged and no
effects recorded. -/
theorem C4_witness :
    build envEmptyFs emptyRuntime inputC4 =
      (Except.error ("Handler not found: " ++ inputC4.handler),
        emptyRuntime, []) := by
  exact (C4_handler_resolution envEmptyFs emptyRuntime inputC4).2.2
    (fun ext _ => rfl)

/-- Appending one element consumed from the left source preserves the
merge relation. -/
theorem isMerge_snoc_left {as bs cs : List Nat} (b : Nat)
    (h : LogsModel.IsMerge as bs cs) :
    LogsModel.IsMerge (as ++ [b]) bs (cs ++ [b]) := by
  induction h with
  | nil => exact .left .nil
  | left h ih => exact .left ih
  | right h ih => exact .right ih

/-- Appending one element consumed from the right source preserves the
merge relation. -/
theorem isMerge_snoc_right {as bs cs : List Nat} (b : Nat)
    (h : LogsModel.IsMerge as bs cs) :
    LogsModel.IsMerge as (bs ++ [b]) (cs ++ [b]) := by
  induction h with
  | nil => exact .right .nil
  | left h ih => exact .left ih
  | right h ih => exact .right ih

/-- Every reachable state of the log multiplexer satisfies the inductive
invariant. -/
theorem reach_inv (o e : List Nat) : ∀ s, LogsModel.Reach o e s →
    LogsModel.Inv o e s := by
  intro s h
  induction h with
  | start =>
    refine ⟨[], [], rfl, rfl, .nil, ?_, ?_, ?_⟩ <;>
      exact fun hcontra => Bool.noConfusion hcontra
  | @next s1 s2 hreach hstep ih =>
    obtain ⟨co, ce, hco, hce, hm, hdo, hde, hcl⟩ := ih
    cases hstep with
    | copyOut b rest h1 h2 =>
      refine ⟨co ++ [b], ce, ?_, ?_, ?_, ?_, ?_, ?_⟩
      · show co ++ [b] ++ rest = o
        rw [h2] at hco
        calc co ++ [b] ++ rest = co ++ (b :: rest) := by simp
        _ = o := hco
      · exact hce
      · exact isMerge_snoc_left b hm
      · intro hcontra
        exact Bool.noConfusion (h1.symm.trans hcontra)
      · exact hde
      · intro hcc
        exact Bool.noConfusion (h1.symm.trans (hcl hcc).1)
    | copyErr b rest h1 h2 =>
      refine ⟨co, ce ++ [b], ?_, ?_, ?_, ?_, ?_, ?_⟩
      · exact hco
      · show ce ++ [b] ++ rest = e
        rw [h2] at hce
        calc ce ++ [b] ++ rest = ce ++ (b :: rest) := by simp
        _ = e := hce
      · exact isMerge_snoc_right b hm
      · exact hdo
      · intro hcontra
        exact Bool.noConfusion (h1.symm.trans hcontra)
      · intro hcc
        exact Bool.noConfusion (h1.symm.trans (hcl hcc).2)
    | finishOut h1 h2 =>
      exact ⟨co, ce, hco, hce, hm, fun _ => h2, hde,
        fun hcc => ⟨rfl, (hcl hcc).2⟩⟩
    | finishErr h1 h2 =>
      exact ⟨co, ce, hco, hce, hm, hdo, fun _ => h2,
        fun hcc => ⟨(hcl hcc).1, rfl⟩⟩
    | closePipe h1 h2 h3 =>
      exact ⟨co, ce, hco, hce, hm, hdo, hde, fun _ => ⟨h1, h2⟩⟩

/-- C8: the log multiplexer.  In every reachable interleaving of the two
copy goroutines and the closer: once the shared pipe is closed, the bytes
delivered to the consumer are exactly an order-preserving merge of the
full standard-output and standard-error streams (every byte of both
sources exactly once) and no further transition is possible (so the close
is a single, final end-of-stream signal, occurring only after both copy
operations have completed); and while the pipe is not closed, some
goroutine can always make progress. -/
theorem C8_logs_merge_then_close (o e : List Nat) (s : LogsModel.St)
    (hr : LogsModel.Reach o e s) :
    (s.closed = true →
      LogsModel.IsMerge o e s.sink ∧ ∀ t, ¬ LogsModel.Step s t) ∧
    (s.closed = false → ∃ t, LogsModel.Step s t) := by
  obtain ⟨co, ce, hco, hce, hm, hdo, hde, hcl⟩ := reach_inv o e s hr
  constructor
  · intro hc
    obtain ⟨h1, h2⟩ := hcl hc
    have ho : s.outRem = [] := hdo h1
    have he : s.errRem = [] := hde h2
    have hcoo : co = o := by rw [← hco, ho]; simp
    have hcee : ce = e := by rw [← hce, he]; simp
    constructor
    · rw [← hcoo, ← hcee]
      exact hm
    · intro t hstep
      cases hstep with
      | copyOut b rest hdone hrem =>
        exact Bool.noConfusion (hdone.symm.trans h1)
      | copyErr b rest hdone hrem =>
        exact Bool.noConfusion (hdone.symm.trans h2)
      | finishOut hdone hrem =>
        exact Bool.noConfusion (hdone.symm.trans h1)
      | finishErr hdone hrem =>
        exact Bool.noConfusion (hdone.symm.trans h2)
      | closePipe hd1 hd2 hcf =>
        exact Bool.noConfusion (hcf.symm.trans hc)
  · intro hc
    cases h1 : s.doneOut with
    | false =>
      cases h2 : s.outRem with
      | nil => exact ⟨_, .finishOut s h1 h2⟩
      | cons b rest => exact ⟨_, .copyOut s b rest h1 h2⟩
    | true =>
      cases h2 : s.doneErr with
      | false =>
        cases h3 : s.errRem with
        | nil => exact ⟨_, .finishErr s h2 h3⟩
        | cons b rest => exact ⟨_, .copyErr s b rest h2 h3⟩
      | true => exact ⟨_, .closePipe s h1 h2 hc⟩

/-- C8 witness: a complete concrete run with stdout byte 1 and stderr
byte 2 reaches a closed state whose sink is the merge [1, 2]. -/
theorem C8_witness : LogsModel.IsMerge [1] [2] [1, 2] := by
  have t0 := LogsModel.Reach.start (o := [1]) (e := [2])
  have t1 := t0.next (LogsModel.Step.copyOut _ 1 [] rfl rfl)
  have t2 := t1.next (LogsModel.Step.finishOut _ rfl rfl)
  have t3 := t2.next (LogsModel.Step.copyErr _ 2 [] rfl rfl)
  have t4 := t3.next (LogsModel.Step.finishErr _ rfl rfl)
  have t5 := t4.next (LogsModel.Step.closePipe _ rfl rfl rfl)
  exact ((C8_logs_merge_then_close [1] [2] _ t5).1 rfl).1

end NodeRuntime








